import Mathlib

set_option linter.unusedVariables false

/-!
Verification model of the streaming message-chunk accumulation core of this
repository (the langchain core message/merge layer).  Only the unit tests of
that core are present under the source tree; the implementation modules
(the deep-merge engine, the message-chunk classes and their combination
operator, serialization and buffer rendering) are absent, so they are
modelled here from the specification, with every behaviour that the in-tree
unit tests pin down reproduced exactly as those tests demand.
-/

/-- Modelled from the spec: the JSON-like values the deep-merge engine works
on (spec section 4.1: mapping, sequence, string, number, bool, None), plus a
tuple kind, which the spec lists among the structurally incompatible kinds
and which the in-tree merge tests exercise.  Mappings are insertion-ordered
association lists, as Python dicts are.  Numeric literals are modelled as
integers; fractional parts never appear in any claim. -/
inductive JValue where
  | null
  | bool (b : Bool)
  | num (n : Int)
  | str (s : String)
  | list (xs : List JValue)
  | dict (kvs : List (String × JValue))
  | tup (xs : List JValue)
deriving Repr

/-- An insertion-ordered mapping, as the merge engine sees Python dicts. -/
abbrev JDict := List (String × JValue)

mutual

/-- Boolean structural equality of values (Python equality restricted to the
insertion-ordered model). -/
def jeq : JValue → JValue → Bool
  | .null, .null => true
  | .bool a, .bool b => a == b
  | .num a, .num b => a == b
  | .str a, .str b => a == b
  | .list a, .list b => jeqL a b
  | .dict a, .dict b => jeqD a b
  | .tup a, .tup b => jeqL a b
  | _, _ => false

/-- Boolean equality of value sequences. -/
def jeqL : List JValue → List JValue → Bool
  | [], [] => true
  | x :: xs, y :: ys => jeq x y && jeqL xs ys
  | _, _ => false

/-- Boolean equality of ordered mappings. -/
def jeqD : List (String × JValue) → List (String × JValue) → Bool
  | [], [] => true
  | (k, v) :: xs, (k', v') :: ys => k == k' && jeq v v' && jeqD xs ys
  | _, _ => false

end

mutual

/-- jeq decides propositional equality of values. -/
theorem jeq_iff : ∀ a b : JValue, jeq a b = true ↔ a = b
  | .null, b => by cases b <;> simp [jeq]
  | .bool a, b => by cases b <;> simp [jeq]
  | .num a, b => by cases b <;> simp [jeq]
  | .str a, b => by cases b <;> simp [jeq]
  | .list xs, b => by
    cases b <;> simp [jeq]
    exact jeqL_iff xs _
  | .dict xs, b => by
    cases b <;> simp [jeq]
    exact jeqD_iff xs _
  | .tup xs, b => by
    cases b <;> simp [jeq]
    exact jeqL_iff xs _

/-- jeqL decides propositional equality of value sequences. -/
theorem jeqL_iff : ∀ xs ys : List JValue, jeqL xs ys = true ↔ xs = ys
  | [], ys => by cases ys <;> simp [jeqL]
  | x :: xs, ys => by
    cases ys with
    | nil => simp [jeqL]
    | cons y ys => simp [jeqL, jeq_iff x y, jeqL_iff xs ys]

/-- jeqD decides propositional equality of ordered mappings. -/
theorem jeqD_iff : ∀ xs ys : List (String × JValue), jeqD xs ys = true ↔ xs = ys
  | [], ys => by cases ys <;> simp [jeqD]
  | (k, v) :: xs, ys => by
    cases ys with
    | nil => simp [jeqD]
    | cons y ys =>
      cases y with
      | mk k' v' =>
        simp [jeqD, jeq_iff v v', jeqD_iff xs ys, and_assoc]

end

instance : DecidableEq JValue := fun a b => decidable_of_iff (jeq a b = true) (jeq_iff a b)

instance {ε α : Type} [DecidableEq ε] [DecidableEq α] : DecidableEq (Except ε α) := fun a b =>
  match a, b with
  | .ok x, .ok y => decidable_of_iff (x = y) (by simp)
  | .error x, .error y => decidable_of_iff (x = y) (by simp)
  | .ok _, .error _ => isFalse (by simp)
  | .error _, .ok _ => isFalse (by simp)

/-- The Python-level type name of a value, as the merge errors report it. -/
def pyType : JValue → String
  | .null => "NoneType"
  | .bool _ => "bool"
  | .num _ => "int"
  | .str _ => "str"
  | .list _ => "list"
  | .dict _ => "dict"
  | .tup _ => "tuple"

/-- First binding of a key in an ordered mapping (Python dict lookup). -/
def jget (k : String) : JDict → Option JValue
  | [] => none
  | (k', v) :: rest => if k' = k then some v else jget k rest

/-- Replace the first binding of a key, keeping its position (Python dict
assignment to an existing key keeps insertion order). -/
def jset (k : String) (v : JValue) : JDict → JDict
  | [] => []
  | (k', v') :: rest => if k' = k then (k', v) :: rest else (k', v') :: jset k v rest

/-- Modelled from the spec: the fatal error of the deep-merge engine
(spec section 7, TypeMismatch): incompatible value kinds at a given key,
reported with the key and both Python-level type names. -/
inductive MergeError where
  | typeMismatch (key : String) (leftType rightType : String)
deriving Repr, DecidableEq

mutual

/-- Modelled from the spec: merge_dicts of langchain_core.utils._merge
(implementation absent from the source tree; only its unit tests are
present).  Keys only on one side pass through unchanged — including a key
whose right-hand value is None, which the in-tree test expects to be copied
in explicitly.  Keys on both sides recurse through the value-merge rules. -/
def merge_dicts (left : JDict) (right : JDict) : Except MergeError JDict :=
  match right with
  | [] => .ok left
  | (k, v) :: rest =>
    match jget k left with
    | none => merge_dicts (left ++ [(k, v)]) rest
    | some lv =>
      match mergeVal k lv v with
      | .error e => .error e
      | .ok mv => merge_dicts (jset k mv left) rest

/-- Modelled from the spec: the per-key value merge of merge_dicts
(spec section 4.1).  None is absent: the non-None side wins.  Strings
concatenate (equal or not).  Mappings and sequences recurse.  Equal
non-string scalars stay unchanged.  Everything else — differing kinds,
unequal scalars, tuples — is a fatal TypeMismatch naming the key and both
Python-level type names. -/
def mergeVal (k : String) (l r : JValue) : Except MergeError JValue :=
  match l, r with
  | .null, .null => .ok .null
  | .null, r => .ok r
  | l, .null => .ok l
  | .str a, .str b => .ok (.str (a ++ b))
  | .dict a, .dict b =>
    match merge_dicts a b with
    | .ok m => .ok (.dict m)
    | .error e => .error e
  | .list a, .list b =>
    match merge_lists a b with
    | .ok m => .ok (.list m)
    | .error e => .error e
  | .num a, .num b =>
    if a = b then .ok (.num a) else .error (.typeMismatch k "int" "int")
  | .bool a, .bool b =>
    if a = b then .ok (.bool a) else .error (.typeMismatch k "bool" "bool")
  | .tup a, .tup b => .error (.typeMismatch k "tuple" "tuple")
  | l, r => .error (.typeMismatch k (pyType l) (pyType r))

/-- Modelled from the spec: merge_lists of langchain_core.utils._merge
(implementation absent from the source tree).  Right elements that are
mappings carrying an integer value under the key literally named "index"
are merged into the first left element holding the same index; every other
right element — including mappings whose index is absent or None — is
appended, preserving first-seen order. -/
def merge_lists (left : List JValue) (right : List JValue) : Except MergeError (List JValue) :=
  match right with
  | [] => .ok left
  | e :: rest =>
    match e with
    | .dict ekvs =>
      match jget "index" ekvs with
      | some (.num n) =>
        match findByIndex left n with
        | some (i, lkvs) =>
          match merge_dicts lkvs ekvs with
          | .error er => .error er
          | .ok m => merge_lists (left.set i (.dict m)) rest
        | none => merge_lists (left ++ [e]) rest
      | _ => merge_lists (left ++ [e]) rest
    | _ => merge_lists (left ++ [e]) rest

/-- Position and bindings of the first list element that is a mapping whose
"index" key holds the given integer (the pairing scan of merge_lists). -/
def findByIndex (xs : List JValue) (n : Int) : Option (Nat × JDict) :=
  match xs with
  | [] => none
  | x :: rest =>
    match x with
    | .dict kvs =>
      match jget "index" kvs with
      | some (.num m) =>
        if m = n then some (0, kvs)
        else Option.map (fun p => (p.1 + 1, p.2)) (findByIndex rest n)
      | _ => Option.map (fun p => (p.1 + 1, p.2)) (findByIndex rest n)
    | _ => Option.map (fun p => (p.1 + 1, p.2)) (findByIndex rest n)

end

example : merge_dicts [("a", .num 1)] [("a", .num 1)] = .ok [("a", .num 1)] := rfl

example : merge_dicts [("a", .str "one")] [("a", .str "two")]
    = .ok [("a", .str "onetwo")] := rfl

example : merge_dicts [("a", .num 1)] [("a", .str "1")]
    = .error (.typeMismatch "a" "int" "str") := rfl

/-- Modelled from the spec: the partial tool invocation fragment
(langchain_core ToolCallChunk, absent from the source tree): optional
partial name, optional unparsed argument-string fragment, optional id and
optional positional index. -/
structure ToolCallChunk where
  name : Option String := none
  args : Option String := none
  id : Option String := none
  index : Option Int := none
deriving Repr, DecidableEq

/-- Modelled from the spec: the concrete kind of a message chunk — the
closed set of message roles with their discriminant sub-fields (the chat
role string, the function name, the tool call id), plus the generic
wildcard base kind. -/
inductive ChunkKind where
  | base
  | ai
  | human
  | system
  | chat (role : String)
  | function (funcName : String)
  | tool (toolCallId : String)
deriving Repr, DecidableEq

/-- Modelled from the spec: a message chunk — kind, textual content, the
open provider mapping, response metadata, optional id and name, the
example flag of ai and human messages, and the tool-call fragments of ai
chunks. -/
structure MessageChunk where
  kind : ChunkKind
  content : String := ""
  additional_kwargs : JDict := []
  response_metadata : JDict := []
  id : Option String := none
  name : Option String := none
  exampleFlag : Bool := false
  tool_call_chunks : List ToolCallChunk := []
deriving Repr, DecidableEq

/-- Modelled from the spec: the fatal failures of chunk combination —
the ValueError of a same-family discriminant conflict (RoleConflict), the
construction failure when a function or tool chunk absorbs a chunk of
another kind, and a propagated merge-engine TypeMismatch. -/
inductive CombineError where
  | valueError (msg : String)
  | validationError (msg : String)
  | mergeError (e : MergeError)
deriving Repr, DecidableEq

/-- Encoding of an optional string as a JSON-like value (None when absent). -/
def optStr : Option String → JValue
  | none => .null
  | some s => .str s

/-- Encoding of an optional integer as a JSON-like value (None when absent). -/
def optInt : Option Int → JValue
  | none => .null
  | some n => .num n

/-- Reading an optional string out of a mapping lookup. -/
def asOptStr : Option JValue → Option String
  | some (.str s) => some s
  | _ => none

/-- Reading an optional integer out of a mapping lookup. -/
def asOptInt : Option JValue → Option Int
  | some (.num n) => some n
  | _ => none

/-- A tool-call fragment as the mapping shape the merge engine sees it in. -/
def encodeTCC (c : ToolCallChunk) : JValue :=
  .dict [("name", optStr c.name), ("args", optStr c.args),
         ("id", optStr c.id), ("index", optInt c.index)]

/-- A tool-call fragment recovered from its merged mapping shape. -/
def decodeTCC (v : JValue) : ToolCallChunk :=
  match v with
  | .dict kvs =>
    { name := asOptStr (jget "name" kvs), args := asOptStr (jget "args" kvs),
      id := asOptStr (jget "id" kvs), index := asOptInt (jget "index" kvs) }
  | _ => {}

/-- Modelled from the spec: tool-call fragment merge (spec section 4.2) —
the two fragment sequences pass through merge_lists in their mapping
shape, pairing by equal integer index and appending otherwise. -/
def merge_tool_call_chunks (l r : List ToolCallChunk) :
    Except MergeError (List ToolCallChunk) :=
  match merge_lists (l.map encodeTCC) (r.map encodeTCC) with
  | .ok m => .ok (m.map decodeTCC)
  | .error e => .error e

/-- Modelled from the spec: merge of the optional name field across chunks,
per the generic string-merge rule (absent is absent, strings concatenate). -/
def mergeOptStr : Option String → Option String → Option String
  | none, b => b
  | some a, none => some a
  | some a, some b => some (a ++ b)

/-- Modelled from the spec: the shared field-by-field merge of chunk
combination (spec sections 4.1 and 4.3): content concatenates, the open
mappings deep-merge, the id keeps the first non-null value seen, the name
merges per the string rule, tool-call fragments merge by index; the result
carries the given kind. -/
def base_add (kres : ChunkKind) (a b : MessageChunk) : Except CombineError MessageChunk :=
  match merge_dicts a.additional_kwargs b.additional_kwargs with
  | .error e => .error (.mergeError e)
  | .ok kw =>
    match merge_dicts a.response_metadata b.response_metadata with
    | .error e => .error (.mergeError e)
    | .ok rm =>
      match merge_tool_call_chunks a.tool_call_chunks b.tool_call_chunks with
      | .error e => .error (.mergeError e)
      | .ok tcc =>
        .ok { kind := kres, content := a.content ++ b.content,
              additional_kwargs := kw, response_metadata := rm,
              id := a.id.orElse (fun _ => b.id),
              name := mergeOptStr a.name b.name,
              exampleFlag := a.exampleFlag, tool_call_chunks := tcc }

/-- Modelled from the spec: the combination operator on message chunks
(spec section 4.3), pinned by the in-tree chunk tests: same concrete kind
combines when the discriminants (chat role, function name, tool call id,
the ai example flag) agree and fails with a ValueError otherwise; the
wildcard base kind adopts the concrete side; differing concrete kinds
combine into the left kind — except a function or tool chunk on the left,
whose required discriminant the shared construction cannot supply. -/
def combine (a b : MessageChunk) : Except CombineError MessageChunk :=
  match a.kind, b.kind with
  | .ai, .ai =>
    if a.exampleFlag = b.exampleFlag then base_add .ai a b
    else .error (.valueError "Cannot concatenate AIMessageChunks with different example values.")
  | .chat r1, .chat r2 =>
    if r1 = r2 then base_add (.chat r1) a b
    else .error (.valueError "Cannot concatenate ChatMessageChunks with different roles.")
  | .function n1, .function n2 =>
    if n1 = n2 then base_add (.function n1) a b
    else .error (.valueError "Cannot concatenate FunctionMessageChunks with different names.")
  | .tool t1, .tool t2 =>
    if t1 = t2 then base_add (.tool t1) a b
    else .error (.valueError "Cannot concatenate ToolMessageChunks with different tool call ids.")
  | .base, _ => base_add b.kind a b
  | _, .base => base_add a.kind a b
  | .function _, _ =>
    .error (.validationError "field required: name")
  | .tool _, _ =>
    .error (.validationError "field required: tool_call_id")
  | _, _ => base_add a.kind a b

/-- Modelled from the spec: a complete tool call — name, parsed structured
argument mapping, optional id (the type tag is fixed and lives in the
encoding). -/
structure ToolCall where
  name : String
  args : JDict := []
  id : Option String := none
deriving Repr, DecidableEq

/-- Modelled from the spec: an invalid tool call — the same shape with the
arguments retained as the raw unparsed string and an optional error text. -/
structure InvalidToolCall where
  name : Option String := none
  args : Option String := none
  id : Option String := none
  error : Option String := none
deriving Repr, DecidableEq

/-- Modelled from the spec: the role of a finalized message, with its
discriminant sub-field where the role carries one. -/
inductive MsgRole where
  | system
  | human
  | ai
  | chat (role : String)
  | function (funcName : String)
  | tool (toolCallId : String)
deriving Repr, DecidableEq

/-- Modelled from the spec: a finalized, immutable message. -/
structure Message where
  role : MsgRole
  content : String := ""
  additional_kwargs : JDict := []
  response_metadata : JDict := []
  name : Option String := none
  id : Option String := none
  exampleFlag : Bool := false
  tool_calls : List ToolCall := []
  invalid_tool_calls : List InvalidToolCall := []
deriving Repr, DecidableEq

/-- The role tag of the wire format. -/
def roleTag : MsgRole → String
  | .system => "system"
  | .human => "human"
  | .ai => "ai"
  | .chat _ => "chat"
  | .function _ => "function"
  | .tool _ => "tool"

/-- A message holds only the fields its role owns: the function name is the
name field, the example flag belongs to ai and human messages, tool calls
to ai messages.  This is what any message built by the constructors of the
source can look like. -/
def wfMessage (m : Message) : Bool :=
  match m.role with
  | .ai => true
  | .human => m.tool_calls = [] && m.invalid_tool_calls = []
  | .function fn =>
    m.name = some fn && m.exampleFlag = false
      && m.tool_calls = [] && m.invalid_tool_calls = []
  | _ => m.exampleFlag = false && m.tool_calls = [] && m.invalid_tool_calls = []

/-- A complete tool call in wire shape. -/
def encodeToolCall (t : ToolCall) : JValue :=
  .dict [("name", .str t.name), ("args", .dict t.args),
         ("id", optStr t.id), ("type", .str "tool_call")]

/-- A complete tool call recovered from wire shape. -/
def decodeToolCall (v : JValue) : Option ToolCall :=
  match v with
  | .dict kvs =>
    match jget "name" kvs, jget "args" kvs with
    | some (.str n), some (.dict a) => some { name := n, args := a, id := asOptStr (jget "id" kvs) }
    | _, _ => none
  | _ => none

/-- An invalid tool call in wire shape. -/
def encodeInvalidToolCall (t : InvalidToolCall) : JValue :=
  .dict [("name", optStr t.name), ("args", optStr t.args), ("id", optStr t.id),
         ("error", optStr t.error), ("type", .str "invalid_tool_call")]

/-- An invalid tool call recovered from wire shape. -/
def decodeInvalidToolCall (v : JValue) : Option InvalidToolCall :=
  match v with
  | .dict kvs =>
    some { name := asOptStr (jget "name" kvs), args := asOptStr (jget "args" kvs),
           id := asOptStr (jget "id" kvs), error := asOptStr (jget "error" kvs) }
  | _ => none

/-- Modelled from the spec: message_to_dict of langchain_core (absent from
the source tree) — the wire and persistence shape: a mapping with the role
tag under "type" and the field mapping under "data"; data carries the
common fields for every role and the role-specific fields (example for ai
and human, tool calls for ai, the chat role, the tool call id) for the
roles that own them. -/
def message_to_dict (m : Message) : JValue :=
  .dict [("type", .str (roleTag m.role)),
         ("data", .dict
           ([("content", .str m.content),
             ("additional_kwargs", .dict m.additional_kwargs),
             ("response_metadata", .dict m.response_metadata),
             ("type", .str (roleTag m.role)),
             ("name", optStr m.name),
             ("id", optStr m.id)]
            ++ (match m.role with
                | .ai =>
                  [("example", .bool m.exampleFlag),
                   ("tool_calls", .list (m.tool_calls.map encodeToolCall)),
                   ("invalid_tool_calls", .list (m.invalid_tool_calls.map encodeInvalidToolCall))]
                | .human => [("example", .bool m.exampleFlag)]
                | .chat r => [("role", .str r)]
                | .tool tcid => [("tool_call_id", .str tcid)]
                | _ => [])))]

/-- Every element of a wire list decoded as a complete tool call; any
failure fails the list. -/
def decodeToolCallList : List JValue → Option (List ToolCall)
  | [] => some []
  | v :: vs =>
    match decodeToolCall v, decodeToolCallList vs with
    | some t, some ts => some (t :: ts)
    | _, _ => none

/-- Every element of a wire list decoded as an invalid tool call; any
failure fails the list. -/
def decodeInvalidToolCallList : List JValue → Option (List InvalidToolCall)
  | [] => some []
  | v :: vs =>
    match decodeInvalidToolCall v, decodeInvalidToolCallList vs with
    | some t, some ts => some (t :: ts)
    | _, _ => none

/-- The common fields of the data mapping, shared by every role's decoder. -/
def decodeCommon (role : MsgRole) (data : JDict) : Option Message :=
  match jget "content" data, jget "additional_kwargs" data, jget "response_metadata" data with
  | some (.str c), some (.dict kw), some (.dict rm) =>
    some { role := role, content := c, additional_kwargs := kw, response_metadata := rm,
           name := asOptStr (jget "name" data), id := asOptStr (jget "id" data) }
  | _, _, _ => none

/-- Modelled from the spec: message_from_dict of langchain_core (absent
from the source tree) — rebuilding a message from its wire shape, keyed on
the role tag; an unrecognized tag is the UnsupportedRole failure, here
None. -/
def message_from_dict (v : JValue) : Option Message :=
  match v with
  | .dict kvs =>
    match jget "type" kvs, jget "data" kvs with
    | some (.str tag), some (.dict data) =>
      if tag = "system" then decodeCommon .system data
      else if tag = "human" then
        match decodeCommon .human data, jget "example" data with
        | some m, some (.bool ex) => some { m with exampleFlag := ex }
        | _, _ => none
      else if tag = "ai" then
        match decodeCommon .ai data, jget "example" data,
              jget "tool_calls" data, jget "invalid_tool_calls" data with
        | some m, some (.bool ex), some (.list tcs), some (.list itcs) =>
          match decodeToolCallList tcs, decodeInvalidToolCallList itcs with
          | some tcs', some itcs' =>
            some { m with exampleFlag := ex, tool_calls := tcs', invalid_tool_calls := itcs' }
          | _, _ => none
        | _, _, _, _ => none
      else if tag = "chat" then
        match jget "role" data with
        | some (.str r) => decodeCommon (.chat r) data
        | _ => none
      else if tag = "function" then
        match jget "name" data with
        | some (.str fn) => decodeCommon (.function fn) data
        | _ => none
      else if tag = "tool" then
        match jget "tool_call_id" data with
        | some (.str tcid) => decodeCommon (.tool tcid) data
        | _ => none
      else none
    | _, _ => none
  | _ => none

/-- Modelled from the spec: messages_to_dict — the wire shape of a message
sequence, in order. -/
def messages_to_dict (msgs : List Message) : List JValue :=
  msgs.map message_to_dict

/-- Modelled from the spec: messages_from_dict — every element rebuilt from
its wire shape; any unsupported element fails the whole conversion. -/
def messages_from_dict : List JValue → Option (List Message)
  | [] => some []
  | v :: vs =>
    match message_from_dict v, messages_from_dict vs with
    | some m, some ms => some (m :: ms)
    | _, _ => none

/-- Modelled from the spec: the role-name line head of buffer rendering —
human and ai use the caller's configurable names, system, function and
tool are fixed, a chat message uses its own role string verbatim. -/
def rolePrefixOf (humanName aiName : String) (m : Message) : String :=
  match m.role with
  | .human => humanName
  | .ai => aiName
  | .system => "System"
  | .function _ => "Function"
  | .tool _ => "Tool"
  | .chat r => r

/-- Join of rendered lines with a newline between consecutive lines (the
join of the rendering step). -/
def joinNewline : List String → String
  | [] => ""
  | [s] => s
  | s :: rest => s ++ "\n" ++ joinNewline rest

/-- Modelled from the spec: get_buffer_string of langchain_core (absent
from the source tree) — one line per message, the role name, a colon and a
space, then the content, joined by newline in input order. -/
def get_buffer_string (msgs : List Message) (humanName : String := "Human")
    (aiName : String := "AI") : String :=
  joinNewline (msgs.map (fun m => rolePrefixOf humanName aiName m ++ ": " ++ m.content))

/-- JSON whitespace. -/
def isJsonWs (c : Char) : Bool :=
  c = ' ' || c = '\n' || c = '\t' || c = '\r'

/-- An ASCII decimal digit. -/
def isDigitCh (c : Char) : Bool :=
  '0' ≤ c && c ≤ '9'

/-- Drop leading JSON whitespace. -/
def dropWs : List Char → List Char
  | [] => []
  | c :: cs => if isJsonWs c then dropWs cs else c :: cs

/-- Longest leading digit run and the remainder. -/
def spanDigits : List Char → List Char × List Char
  | [] => ([], [])
  | c :: cs =>
    if isDigitCh c then
      let (ds, r) := spanDigits cs
      (c :: ds, r)
    else ([], c :: cs)

/-- The natural number a digit run denotes. -/
def digitsVal (ds : List Char) : Nat :=
  ds.foldl (fun acc c => acc * 10 + (c.toNat - '0'.toNat)) 0

/-- One unescaped character of a JSON string body. -/
def jsonUnescape (c : Char) : Option Char :=
  if c = 'n' then some '\n'
  else if c = 't' then some '\t'
  else if c = 'r' then some '\r'
  else if c = '"' || c = '\\' || c = '/' then some c
  else none

/-- Body of a JSON string after its opening quote, up to the closing quote
(structural on the input; unicode escapes are not modelled — no claim
touches them). -/
def readStringBody (acc : List Char) : List Char → Option (String × List Char)
  | [] => none
  | '"' :: rest => some (String.mk acc.reverse, rest)
  | '\\' :: e :: rest =>
    match jsonUnescape e with
    | some c => readStringBody (c :: acc) rest
    | none => none
  | c :: rest => readStringBody (c :: acc) rest

/-- A JSON integer literal (fractional and exponent parts are not consumed,
so a non-integer number fails the surrounding parse — it is classified like
any other malformed argument text). -/
def readIntLit (cs : List Char) : Option (Int × List Char) :=
  let (neg, cs1) : Bool × List Char :=
    match cs with
    | '-' :: r => (true, r)
    | _ => (false, cs)
  let (ds, r) := spanDigits cs1
  if ds.isEmpty then none
  else some ((if neg then -(digitsVal ds : Int) else (digitsVal ds : Int)), r)

mutual

/-- Modelled from the spec: JSON parsing of an accumulated tool-call
argument string (the json parsing helper of langchain_core, absent from
the source tree; its partial-fragment recovery is not modelled — the spec
asks only that the argument text be parsed as JSON).  Structural on a fuel
bound, so totality is direct. -/
def readValue : Nat → List Char → Option (JValue × List Char)
  | 0, _ => none
  | fuel + 1, cs =>
    match dropWs cs with
    | 'n' :: 'u' :: 'l' :: 'l' :: r => some (.null, r)
    | 't' :: 'r' :: 'u' :: 'e' :: r => some (.bool true, r)
    | 'f' :: 'a' :: 'l' :: 's' :: 'e' :: r => some (.bool false, r)
    | '"' :: r =>
      match readStringBody [] r with
      | some (s, r') => some (.str s, r')
      | none => none
    | '[' :: r =>
      match dropWs r with
      | ']' :: r' => some (.list [], r')
      | r' =>
        match readElems fuel r' with
        | some (xs, r'') => some (.list xs, r'')
        | none => none
    | '{' :: r =>
      match dropWs r with
      | '}' :: r' => some (.dict [], r')
      | r' =>
        match readMembers fuel r' with
        | some (ms, r'') => some (.dict ms, r'')
        | none => none
    | c :: r =>
      if c = '-' || isDigitCh c then
        match readIntLit (c :: r) with
        | some (n, r') => some (.num n, r')
        | none => none
      else none
    | [] => none

/-- One or more comma-separated array elements, through the closing
bracket. -/
def readElems : Nat → List Char → Option (List JValue × List Char)
  | 0, _ => none
  | fuel + 1, cs =>
    match readValue fuel cs with
    | none => none
    | some (v, r) =>
      match dropWs r with
      | ',' :: r' =>
        match readElems fuel r' with
        | some (vs, r'') => some (v :: vs, r'')
        | none => none
      | ']' :: r' => some ([v], r')
      | _ => none

/-- One or more comma-separated object members, through the closing
brace. -/
def readMembers : Nat → List Char → Option (List (String × JValue) × List Char)
  | 0, _ => none
  | fuel + 1, cs =>
    match dropWs cs with
    | '"' :: r =>
      match readStringBody [] r with
      | none => none
      | some (key, r1) =>
        match dropWs r1 with
        | ':' :: r2 =>
          match readValue fuel r2 with
          | none => none
          | some (v, r3) =>
            match dropWs r3 with
            | ',' :: r4 =>
              match readMembers fuel r4 with
              | some (ms, r5) => some ((key, v) :: ms, r5)
              | none => none
            | '}' :: r4 => some ([(key, v)], r4)
            | _ => none
        | _ => none
    | _ => none

end

/-- Modelled from the spec: parse of a whole argument string as JSON; the
result must consume the entire input. -/
def parse_json (s : String) : Option JValue :=
  match readValue (s.length + 1) s.data with
  | some (v, r) => if dropWs r = [] then some v else none
  | none => none

/-- Modelled from the spec: the classification of one accumulated tool-call
fragment at finalization (spec section 4.3 last rule, pinned by the
in-tree finalization test): absent argument text, argument text that does
not parse as JSON, a parse result that is not a mapping, and a missing
name all yield an InvalidToolCall retaining the raw argument string; a
parsed mapping with a name present yields a ToolCall. -/
def classifyChunk (c : ToolCallChunk) : Sum ToolCall InvalidToolCall :=
  match c.args with
  | none => .inr { name := c.name, args := none, id := c.id, error := none }
  | some s =>
    match parse_json s with
    | some (.dict kvs) =>
      match c.name with
      | some n => .inl { name := n, args := kvs, id := c.id }
      | none => .inr { name := none, args := some s, id := c.id, error := none }
    | _ => .inr { name := c.name, args := some s, id := c.id, error := none }

/-- Modelled from the spec: the derived tool-call lists of a finalized ai
message — every fragment classified in order, the valid and the invalid
calls each keeping their relative order. -/
def derivedToolCalls (tcc : List ToolCallChunk) : List ToolCall × List InvalidToolCall :=
  match tcc with
  | [] => ([], [])
  | c :: rest =>
    let (tcs, itcs) := derivedToolCalls rest
    match classifyChunk c with
    | .inl t => (t :: tcs, itcs)
    | .inr t => (tcs, t :: itcs)

/-- Modelled from the spec: message_chunk_to_message of langchain_core
(absent from the source tree) — the finalization step: the chunk's fields
carry over into the message of the same role, and an ai chunk additionally
derives tool_calls and invalid_tool_calls from its accumulated fragments;
the generic base kind has no message counterpart. -/
def message_chunk_to_message (c : MessageChunk) : Option Message :=
  match c.kind with
  | .base => none
  | .ai =>
    some { role := .ai, content := c.content, additional_kwargs := c.additional_kwargs,
           response_metadata := c.response_metadata, name := c.name, id := c.id,
           exampleFlag := c.exampleFlag,
           tool_calls := (derivedToolCalls c.tool_call_chunks).1,
           invalid_tool_calls := (derivedToolCalls c.tool_call_chunks).2 }
  | .human =>
    some { role := .human, content := c.content, additional_kwargs := c.additional_kwargs,
           response_metadata := c.response_metadata, name := c.name, id := c.id,
           exampleFlag := c.exampleFlag }
  | .system =>
    some { role := .system, content := c.content, additional_kwargs := c.additional_kwargs,
           response_metadata := c.response_metadata, name := c.name, id := c.id }
  | .chat r =>
    some { role := .chat r, content := c.content, additional_kwargs := c.additional_kwargs,
           response_metadata := c.response_metadata, name := c.name, id := c.id }
  | .function fn =>
    some { role := .function fn, content := c.content, additional_kwargs := c.additional_kwargs,
           response_metadata := c.response_metadata, name := some fn, id := c.id }
  | .tool tcid =>
    some { role := .tool tcid, content := c.content, additional_kwargs := c.additional_kwargs,
           response_metadata := c.response_metadata, name := c.name, id := c.id }

/-! ### Helper lemmas about the merge engine -/

/-- Merging any value onto None yields that value. -/
theorem mergeVal_null_left (k : String) (v : JValue) : mergeVal k .null v = .ok v := by
  cases v <;> simp [mergeVal]

/-- Merging None onto any value keeps that value. -/
theorem mergeVal_null_right (k : String) (v : JValue) : mergeVal k v .null = .ok v := by
  cases v <;> simp [mergeVal]

/-- Writing back the value a key already holds changes nothing. -/
theorem jset_self (k : String) (v : JValue) :
    ∀ l : JDict, jget k l = some v → jset k v l = l := by
  intro l
  induction l with
  | nil => intro h; simp [jget] at h
  | cons hd tl ih =>
    obtain ⟨k', v'⟩ := hd
    intro h
    by_cases hk : k' = k
    · subst hk
      simp [jget] at h
      simp [jset, h]
    · simp [jget, hk] at h
      simp [jset, hk, ih h]

/-- Merging two values of different kinds, neither None, reports both
Python-level type names at the key. -/
theorem mergeVal_kind_mismatch (k : String) (l r : JValue)
    (hl : l ≠ .null) (hr : r ≠ .null) (hty : pyType l ≠ pyType r) :
    mergeVal k l r = .error (.typeMismatch k (pyType l) (pyType r)) := by
  cases l <;> cases r <;> simp_all [mergeVal, pyType]

/-- Claim C6: in the deep-merge engine None is a two-sided identity for
every value, equal non-string scalars merge unchanged, and strings —
equal or not — merge by concatenation, so txt plus txt is txttxt; stated
both at the value level and through merge_dicts at a shared key. -/
theorem merge_none_identity_scalars_strings :
    (∀ (k : String) (v : JValue), mergeVal k .null v = .ok v)
    ∧ (∀ (k : String) (v : JValue), mergeVal k v .null = .ok v)
    ∧ (∀ (k : String) (n : Int), mergeVal k (.num n) (.num n) = .ok (.num n))
    ∧ (∀ (k : String) (b : Bool), mergeVal k (.bool b) (.bool b) = .ok (.bool b))
    ∧ (∀ (k s t : String), mergeVal k (.str s) (.str t) = .ok (.str (s ++ t)))
    ∧ (∀ (k : String) (v : JValue), merge_dicts [(k, .null)] [(k, v)] = .ok [(k, v)])
    ∧ (∀ (k : String) (v : JValue), merge_dicts [(k, v)] [(k, .null)] = .ok [(k, v)])
    ∧ merge_dicts [("a", .str "txt")] [("a", .str "txt")] = .ok [("a", .str "txttxt")] := by
  refine ⟨mergeVal_null_left, mergeVal_null_right, ?_, ?_, ?_, ?_, ?_, ?_⟩
  · intro k n; simp [mergeVal]
  · intro k b; simp [mergeVal]
  · intro k s t; simp [mergeVal]
  · intro k v
    simp [merge_dicts, jget, jset, mergeVal_null_left]
  · intro k v
    simp [merge_dicts, jget, jset, mergeVal_null_right]
  · decide

/-- Claim C10: merge_dicts copies a key present only on the right even when
its value is None, binding it explicitly to None at the end; while a None
on the right for a key present on both sides is treated as absent and the
left value stays. -/
theorem merge_dicts_right_only_none_kept :
    (∀ (l : JDict) (k : String), jget k l = none →
      merge_dicts l [(k, .null)] = .ok (l ++ [(k, .null)]))
    ∧ (∀ (l : JDict) (k : String) (v : JValue), jget k l = some v →
      merge_dicts l [(k, .null)] = .ok l) := by
  constructor
  · intro l k h
    simp [merge_dicts, h]
  · intro l k v h
    simp [merge_dicts, h, mergeVal_null_right, jset_self k v l h]

/-- Claim C10 witness: the in-tree test row — merging a right-only key
bound to None appends it explicitly, and a both-sides None right value
leaves the left binding alone. -/
theorem merge_dicts_right_only_none_kept_witness :
    merge_dicts [("a", .num 1), ("b", .num 2)] [("c", .null)]
      = .ok [("a", .num 1), ("b", .num 2), ("c", .null)]
    ∧ merge_dicts [("a", .num 1)] [("a", .null)] = .ok [("a", .num 1)] := by
  constructor
  · exact merge_dicts_right_only_none_kept.1 [("a", .num 1), ("b", .num 2)] "c" (by decide)
  · exact merge_dicts_right_only_none_kept.2 [("a", .num 1)] "a" (.num 1) (by decide)

/-- Claim C4: two values of structurally incompatible kinds at a shared key
— differing kinds with neither side None, or two tuples — make merge_dicts
fail with a TypeMismatch error naming the offending key and both
Python-level type names, and the failure propagates through the chunk
combination step rather than being coerced. -/
theorem merge_dicts_type_mismatch_fatal :
    (∀ (k : String) (l r : JValue), l ≠ .null → r ≠ .null → pyType l ≠ pyType r →
      mergeVal k l r = .error (.typeMismatch k (pyType l) (pyType r)))
    ∧ (∀ (k : String) (l r : JValue), l ≠ .null → r ≠ .null → pyType l ≠ pyType r →
      merge_dicts [(k, l)] [(k, r)] = .error (.typeMismatch k (pyType l) (pyType r)))
    ∧ (∀ (k : String) (xs ys : List JValue),
      merge_dicts [(k, .tup xs)] [(k, .tup ys)] = .error (.typeMismatch k "tuple" "tuple"))
    ∧ (∀ (k : String) (l r : JValue), l ≠ .null → r ≠ .null → pyType l ≠ pyType r →
      combine { kind := .ai, additional_kwargs := [(k, l)] }
          { kind := .ai, additional_kwargs := [(k, r)] }
        = .error (.mergeError (.typeMismatch k (pyType l) (pyType r)))) := by
  have hdict : ∀ (k : String) (l r : JValue), l ≠ .null → r ≠ .null → pyType l ≠ pyType r →
      merge_dicts [(k, l)] [(k, r)] = .error (.typeMismatch k (pyType l) (pyType r)) := by
    intro k l r hl hr hty
    simp [merge_dicts, jget, mergeVal_kind_mismatch k l r hl hr hty]
  refine ⟨mergeVal_kind_mismatch, hdict, ?_, ?_⟩
  · intro k xs ys
    simp [merge_dicts, jget, mergeVal]
  · intro k l r hl hr hty
    simp [combine, base_add, hdict k l r hl hr hty]

/-- Claim C4 witness: at the in-tree test inputs — an int against a string
at key a, and two tuples at key a — the merge fails with the TypeMismatch
carrying the key and the type names, and an int-string clash inside
additional_kwargs aborts the chunk combination with the same error. -/
theorem merge_dicts_type_mismatch_fatal_witness :
    merge_dicts [("a", .num 1)] [("a", .str "1")]
      = .error (.typeMismatch "a" "int" "str")
    ∧ merge_dicts [("a", .tup [.num 1, .num 2])] [("a", .tup [.num 3])]
      = .error (.typeMismatch "a" "tuple" "tuple")
    ∧ combine { kind := .ai, additional_kwargs := [("a", .num 1)] }
        { kind := .ai, additional_kwargs := [("a", .str "1")] }
      = .error (.mergeError (.typeMismatch "a" "int" "str")) := by
  refine ⟨?_, ?_, ?_⟩
  · exact merge_dicts_type_mismatch_fatal.2.1 "a" (.num 1) (.str "1")
      (by decide) (by decide) (by decide)
  · exact merge_dicts_type_mismatch_fatal.2.2.1 "a" [.num 1, .num 2] [.num 3]
  · exact merge_dicts_type_mismatch_fatal.2.2.2 "a" (.num 1) (.str "1")
      (by decide) (by decide) (by decide)

/-- Claim C2: merging two lists of tool-call-chunk-shaped mappings pairs a
right element with the first left element holding the same integer value
under the key literally named index, merging it field-by-field through
merge_dicts in place (string fields concatenating); a right element whose
index matches no left element, or whose index is absent or None on either
side, or any element under a key not literally named index, is appended as
a distinct entry, and entries keep first-seen order. -/
theorem merge_lists_index_pairing :
    (∀ (left : List JValue) (ekvs : JDict) (rest : List JValue) (n : Int) (i : Nat)
        (lkvs m : JDict),
      jget "index" ekvs = some (.num n) →
      findByIndex left n = some (i, lkvs) →
      merge_dicts lkvs ekvs = .ok m →
      merge_lists left (.dict ekvs :: rest) = merge_lists (left.set i (.dict m)) rest)
    ∧ (∀ (left : List JValue) (ekvs : JDict) (rest : List JValue) (n : Int),
      jget "index" ekvs = some (.num n) →
      findByIndex left n = none →
      merge_lists left (.dict ekvs :: rest) = merge_lists (left ++ [.dict ekvs]) rest)
    ∧ (∀ (left : List JValue) (ekvs : JDict) (rest : List JValue),
      (∀ n : Int, jget "index" ekvs ≠ some (.num n)) →
      merge_lists left (.dict ekvs :: rest) = merge_lists (left ++ [.dict ekvs]) rest)
    ∧ (∀ (left : List JValue) (e : JValue) (rest : List JValue),
      (∀ kvs : JDict, e ≠ .dict kvs) →
      merge_lists left (e :: rest) = merge_lists (left ++ [e]) rest)
    ∧ (∀ (lkvs : JDict) (rest : List JValue) (n : Int) (ekvs : JDict),
      jget "index" lkvs ≠ some (.num n) →
      jget "index" ekvs = some (.num n) →
      merge_lists [.dict lkvs] (.dict ekvs :: rest)
        = merge_lists [.dict lkvs, .dict ekvs] rest)
    ∧ (∀ (n : Int) (s t : String),
      merge_lists [.dict [("index", .num n), ("args", .str s)]]
          [.dict [("index", .num n), ("args", .str t)]]
        = .ok [.dict [("index", .num n), ("args", .str (s ++ t))]]) := by
  have happend : ∀ (left : List JValue) (ekvs : JDict) (rest : List JValue),
      (∀ n : Int, jget "index" ekvs ≠ some (.num n)) →
      merge_lists left (.dict ekvs :: rest) = merge_lists (left ++ [.dict ekvs]) rest := by
    intro left ekvs rest h
    cases h' : jget "index" ekvs with
    | none => simp [merge_lists, h']
    | some v =>
      cases v with
      | num n => exact absurd h' (h n)
      | null => simp [merge_lists, h']
      | bool b => simp [merge_lists, h']
      | str s => simp [merge_lists, h']
      | list xs => simp [merge_lists, h']
      | dict kvs => simp [merge_lists, h']
      | tup xs => simp [merge_lists, h']
  refine ⟨?_, ?_, happend, ?_, ?_, ?_⟩
  · intro left ekvs rest n i lkvs m h1 h2 h3
    simp [merge_lists, h1, h2, h3]
  · intro left ekvs rest n h1 h2
    simp [merge_lists, h1, h2]
  · intro left e rest h
    cases e with
    | dict kvs => exact absurd rfl (h kvs)
    | null => simp [merge_lists]
    | bool b => simp [merge_lists]
    | num n => simp [merge_lists]
    | str s => simp [merge_lists]
    | list xs => simp [merge_lists]
    | tup xs => simp [merge_lists]
  · intro lkvs rest n ekvs h1 h2
    have hf : findByIndex [.dict lkvs] n = none := by
      cases h' : jget "index" lkvs with
      | none => simp [findByIndex, h']
      | some v =>
        cases v with
        | num m =>
          have hmn : ¬ (m = n) := by
            intro e; subst e; exact h1 h'
          simp [findByIndex, h', hmn]
        | null => simp [findByIndex, h']
        | bool b => simp [findByIndex, h']
        | str s => simp [findByIndex, h']
        | list xs => simp [findByIndex, h']
        | dict kvs => simp [findByIndex, h']
        | tup xs => simp [findByIndex, h']
    simp [merge_lists, h2, hf]
  · intro n s t
    simp [merge_lists, jget, findByIndex, merge_dicts, jset, mergeVal]

/-- Claim C2 witness: with a left element indexed 0, a right element also
indexed 0 merges into it in place (args concatenating), a right element
indexed 1 is appended after it, and an element with a None index is
appended rather than paired. -/
theorem merge_lists_index_pairing_witness :
    merge_lists [.dict [("index", .num 0), ("args", .str "x")]]
        [.dict [("index", .num 0), ("args", .str "y")]]
      = .ok [.dict [("index", .num 0), ("args", .str "xy")]]
    ∧ merge_lists [.dict [("index", .num 0), ("args", .str "x")]]
        [.dict [("index", .num 1), ("args", .str "y")]]
      = .ok [.dict [("index", .num 0), ("args", .str "x")],
             .dict [("index", .num 1), ("args", .str "y")]]
    ∧ merge_lists [.dict [("index", .null), ("args", .str "x")]]
        [.dict [("index", .null), ("args", .str "y")]]
      = .ok [.dict [("index", .null), ("args", .str "x")],
             .dict [("index", .null), ("args", .str "y")]] := by
  refine ⟨?_, ?_, ?_⟩
  · have h := merge_lists_index_pairing.1
      [.dict [("index", .num 0), ("args", .str "x")]]
      [("index", .num 0), ("args", .str "y")] [] 0 0
      [("index", .num 0), ("args", .str "x")]
      [("index", .num 0), ("args", .str "xy")]
      (by decide) (by decide) (by decide)
    rw [h]; decide
  · have h := merge_lists_index_pairing.2.1
      [.dict [("index", .num 0), ("args", .str "x")]]
      [("index", .num 1), ("args", .str "y")] [] 1
      (by decide) (by decide)
    rw [h]; decide
  · have h := merge_lists_index_pairing.2.2.1
      [.dict [("index", .null), ("args", .str "x")]]
      [("index", .null), ("args", .str "y")] []
      (by intro n; simp [jget])
    rw [h]; decide

/-- Claim C5: combining two chunks of the same family with mismatched
discriminants — two chat chunks with different roles, two function chunks
with different names, or two tool chunks with different tool call ids —
fails with the role-conflict ValueError instead of resolving silently. -/
theorem same_family_discriminant_conflict :
    (∀ (a b : MessageChunk) (r1 r2 : String), a.kind = .chat r1 → b.kind = .chat r2 →
      r1 ≠ r2 → combine a b
        = .error (.valueError "Cannot concatenate ChatMessageChunks with different roles."))
    ∧ (∀ (a b : MessageChunk) (n1 n2 : String), a.kind = .function n1 → b.kind = .function n2 →
      n1 ≠ n2 → combine a b
        = .error (.valueError "Cannot concatenate FunctionMessageChunks with different names."))
    ∧ (∀ (a b : MessageChunk) (t1 t2 : String), a.kind = .tool t1 → b.kind = .tool t2 →
      t1 ≠ t2 → combine a b
        = .error (.valueError "Cannot concatenate ToolMessageChunks with different tool call ids.")) := by
  refine ⟨?_, ?_, ?_⟩
  · intro a b r1 r2 ha hb hne
    simp [combine, ha, hb, hne]
  · intro a b n1 n2 ha hb hne
    simp [combine, ha, hb, hne]
  · intro a b t1 t2 ha hb hne
    simp [combine, ha, hb, hne]

/-- Claim C5 witness: the in-tree conflicts — chat roles User against
Assistant, function names hello against bye, and two tool call ids —
each raise the ValueError. -/
theorem same_family_discriminant_conflict_witness :
    combine { kind := .chat "User", content := "I am" }
        { kind := .chat "Assistant", content := " indeed." }
      = .error (.valueError "Cannot concatenate ChatMessageChunks with different roles.")
    ∧ combine { kind := .function "hello", content := "I am" }
        { kind := .function "bye", content := " indeed." }
      = .error (.valueError "Cannot concatenate FunctionMessageChunks with different names.")
    ∧ combine { kind := .tool "id1", content := "I am" }
        { kind := .tool "id2", content := " indeed." }
      = .error (.valueError "Cannot concatenate ToolMessageChunks with different tool call ids.") := by
  refine ⟨?_, ?_, ?_⟩
  · exact same_family_discriminant_conflict.1 _ _ "User" "Assistant" rfl rfl (by decide)
  · exact same_family_discriminant_conflict.2.1 _ _ "hello" "bye" rfl rfl (by decide)
  · exact same_family_discriminant_conflict.2.2 _ _ "id1" "id2" rfl rfl (by decide)

/-- A kind other than the generic wildcard base. -/
def isConcreteKind : ChunkKind → Bool
  | .base => false
  | _ => true

/-- Two kinds of the same family (same constructor, discriminants aside). -/
def sameKindClass : ChunkKind → ChunkKind → Bool
  | .base, .base => true
  | .ai, .ai => true
  | .human, .human => true
  | .system, .system => true
  | .chat _, .chat _ => true
  | .function _, .function _ => true
  | .tool _, .tool _ => true
  | _, _ => false

/-- A successful shared field-merge yields the requested kind and the
concatenated content. -/
theorem base_add_ok {kres : ChunkKind} {a b c : MessageChunk}
    (h : base_add kres a b = .ok c) :
    c.kind = kres ∧ c.content = a.content ++ b.content := by
  unfold base_add at h
  cases h1 : merge_dicts a.additional_kwargs b.additional_kwargs with
  | error e => rw [h1] at h; simp at h
  | ok kw =>
    rw [h1] at h
    cases h2 : merge_dicts a.response_metadata b.response_metadata with
    | error e => rw [h2] at h; simp at h
    | ok rm =>
      rw [h2] at h
      cases h3 : merge_tool_call_chunks a.tool_call_chunks b.tool_call_chunks with
      | error e => rw [h3] at h; simp at h
      | ok tcc =>
        rw [h3] at h
        simp at h
        cases h
        simp

/-- Claim C1 counterexample: combining two chunks of differing concrete
non-base kinds does not always fail — an ai chunk plus a human chunk, the
pair the in-tree chunk test itself checks, succeeds and yields the merged
ai chunk. -/
theorem cross_kind_combination_not_always_fatal :
    ¬ (∀ a b : MessageChunk, isConcreteKind a.kind = true → isConcreteKind b.kind = true →
        sameKindClass a.kind b.kind = false → ∃ e, combine a b = .error e) := by
  intro h
  obtain ⟨e, he⟩ := h { kind := .ai, content := "I am", id := some "ai2" }
    { kind := .human, content := " indeed.", id := some "human1" } rfl rfl rfl
  have hok : combine { kind := .ai, content := "I am", id := some "ai2" }
      { kind := .human, content := " indeed.", id := some "human1" }
      = .ok { kind := .ai, content := "I am indeed.", id := some "ai2" } := by decide
  rw [hok] at he
  simp at he

/-- Claim C1 as amended: combining chunks of differing concrete kinds is
not fatal in general — with an ai, human, system or chat chunk on the
left it is exactly the shared field-merge, so it succeeds whenever the
underlying dict merges succeed and the result takes the left operand's
kind with concatenated content; only a function or tool chunk on the left
fails fatally, since the shared construction cannot supply its required
discriminant field. -/
theorem cross_kind_combination_left_kind (a b : MessageChunk)
    (hca : isConcreteKind a.kind = true) (hcb : isConcreteKind b.kind = true)
    (hsc : sameKindClass a.kind b.kind = false) :
    ((∀ fn, a.kind ≠ .function fn) → (∀ ti, a.kind ≠ .tool ti) →
      combine a b = base_add a.kind a b
      ∧ ∀ c, combine a b = .ok c → c.kind = a.kind ∧ c.content = a.content ++ b.content)
    ∧ (∀ fn, a.kind = .function fn →
      combine a b = .error (.validationError "field required: name"))
    ∧ (∀ ti, a.kind = .tool ti →
      combine a b = .error (.validationError "field required: tool_call_id")) := by
  have step : combine a b = base_add a.kind a b →
      ((∀ fn, a.kind ≠ .function fn) → (∀ ti, a.kind ≠ .tool ti) →
        combine a b = base_add a.kind a b
        ∧ ∀ c, combine a b = .ok c → c.kind = a.kind ∧ c.content = a.content ++ b.content) := by
    intro heq _ _
    refine ⟨heq, ?_⟩
    intro c hc
    rw [heq] at hc
    exact base_add_ok hc
  cases ha : a.kind <;> cases hb : b.kind <;>
    simp_all [isConcreteKind, sameKindClass, combine]

/-- Claim C1 amended witness: at the in-tree pair — ai plus human — the
combination is the shared field-merge, succeeding with the left ai kind
and concatenated content; and a function chunk on the left of an ai chunk
fails with the construction error. -/
theorem cross_kind_combination_left_kind_witness :
    combine { kind := .ai, content := "I am", id := some "ai2" }
        { kind := .human, content := " indeed.", id := some "human1" }
      = base_add ChunkKind.ai { kind := .ai, content := "I am", id := some "ai2" }
          { kind := .human, content := " indeed.", id := some "human1" }
    ∧ combine { kind := .ai, content := "I am", id := some "ai2" }
        { kind := .human, content := " indeed.", id := some "human1" }
      = .ok { kind := .ai, content := "I am indeed.", id := some "ai2" }
    ∧ combine { kind := .function "hello", content := "x" } { kind := .ai, content := "y" }
      = .error (.validationError "field required: name")
    ∧ combine { kind := .tool "tid", content := "x" } { kind := .ai, content := "y" }
      = .error (.validationError "field required: tool_call_id") := by
  have h := cross_kind_combination_left_kind
    { kind := .ai, content := "I am", id := some "ai2" }
    { kind := .human, content := " indeed.", id := some "human1" } rfl rfl rfl
  have h1 := (h.1 (by intro fn hx; cases hx) (by intro ti hx; cases hx)).1
  refine ⟨h1, ?_, ?_, ?_⟩
  · rw [h1]; decide
  · exact (cross_kind_combination_left_kind
      { kind := .function "hello", content := "x" } { kind := .ai, content := "y" }
      rfl rfl rfl).2.1 "hello" rfl
  · exact (cross_kind_combination_left_kind
      { kind := .tool "tid", content := "x" } { kind := .ai, content := "y" }
      rfl rfl rfl).2.2 "tid" rfl

/-- Claim C8: get_buffer_string renders one line per message — the role
name, a colon and a space, then the content — joined by newline in input
order; human and ai messages use the caller's configurable names (with
defaults Human and AI), system, function and tool messages use their fixed
names, chat messages use their embedded role verbatim, and the empty input
renders as the empty string. -/
theorem get_buffer_string_spec :
    (∀ hp ap : String, get_buffer_string [] hp ap = "")
    ∧ (∀ (hp ap : String) (m : Message),
      get_buffer_string [m] hp ap = rolePrefixOf hp ap m ++ ": " ++ m.content)
    ∧ (∀ (hp ap : String) (m : Message) (ms : List Message), ms ≠ [] →
      get_buffer_string (m :: ms) hp ap
        = rolePrefixOf hp ap m ++ ": " ++ m.content ++ "\n" ++ get_buffer_string ms hp ap)
    ∧ (∀ (hp ap : String) (m : Message), m.role = .human → rolePrefixOf hp ap m = hp)
    ∧ (∀ (hp ap : String) (m : Message), m.role = .ai → rolePrefixOf hp ap m = ap)
    ∧ (∀ (hp ap : String) (m : Message), m.role = .system → rolePrefixOf hp ap m = "System")
    ∧ (∀ (hp ap : String) (m : Message) (fn : String),
      m.role = .function fn → rolePrefixOf hp ap m = "Function")
    ∧ (∀ (hp ap : String) (m : Message) (ti : String),
      m.role = .tool ti → rolePrefixOf hp ap m = "Tool")
    ∧ (∀ (hp ap : String) (m : Message) (r : String),
      m.role = .chat r → rolePrefixOf hp ap m = r)
    ∧ get_buffer_string [{ role := .human, content := "hi" }] = "Human: hi" := by
  refine ⟨fun hp ap => rfl, fun hp ap m => rfl, ?_, ?_, ?_, ?_, ?_, ?_, ?_, rfl⟩
  · intro hp ap m ms hne
    cases ms with
    | nil => exact absurd rfl hne
    | cons m2 tl => rfl
  · intro hp ap m h; simp [rolePrefixOf, h]
  · intro hp ap m h; simp [rolePrefixOf, h]
  · intro hp ap m h; simp [rolePrefixOf, h]
  · intro hp ap m fn h; simp [rolePrefixOf, h]
  · intro hp ap m ti h; simp [rolePrefixOf, h]
  · intro hp ap m r h; simp [rolePrefixOf, h]

/-- Claim C8 witness: the seven-message rendering of the in-tree buffer
test, derived line by line from the rendering rules. -/
theorem get_buffer_string_spec_witness :
    get_buffer_string
      [{ role := .human, content := "human" }, { role := .ai, content := "ai" },
       { role := .system, content := "system" },
       { role := .function "func", content := "function", name := some "func" },
       { role := .tool "tool_id", content := "tool" }, { role := .chat "Chat", content := "chat" },
       { role := .ai, content := "tool" }]
      = "Human: human\nAI: ai\nSystem: system\nFunction: function\nTool: tool\nChat: chat\nAI: tool" := by
  have h := get_buffer_string_spec.2.2.1 "Human" "AI"
    { role := .human, content := "human" }
    [{ role := .ai, content := "ai" }, { role := .system, content := "system" },
     { role := .function "func", content := "function", name := some "func" },
     { role := .tool "tool_id", content := "tool" }, { role := .chat "Chat", content := "chat" },
     { role := .ai, content := "tool" }] (by simp)
  rw [show get_buffer_string
      [{ role := .human, content := "human" }, { role := .ai, content := "ai" },
       { role := .system, content := "system" },
       { role := .function "func", content := "function", name := some "func" },
       { role := .tool "tool_id", content := "tool" }, { role := .chat "Chat", content := "chat" },
       { role := .ai, content := "tool" }]
    = get_buffer_string
      [{ role := .human, content := "human" }, { role := .ai, content := "ai" },
       { role := .system, content := "system" },
       { role := .function "func", content := "function", name := some "func" },
       { role := .tool "tool_id", content := "tool" }, { role := .chat "Chat", content := "chat" },
       { role := .ai, content := "tool" }] "Human" "AI" from rfl, h]
  decide

/-! ### Round-trip lemmas for the wire format -/

/-- Reading back an encoded optional string yields the original option. -/
theorem asOptStr_optStr (x : Option String) : asOptStr (some (optStr x)) = x := by
  cases x <;> rfl

/-- Reading back an encoded optional integer yields the original option. -/
theorem asOptInt_optInt (x : Option Int) : asOptInt (some (optInt x)) = x := by
  cases x <;> rfl

/-- A complete tool call survives its wire encoding. -/
theorem decodeToolCall_encode (t : ToolCall) :
    decodeToolCall (encodeToolCall t) = some t := by
  obtain ⟨n, args, id⟩ := t
  simp [encodeToolCall, decodeToolCall, jget, asOptStr_optStr]

/-- A list of complete tool calls survives its wire encoding. -/
theorem decodeToolCallList_encode (l : List ToolCall) :
    decodeToolCallList (l.map encodeToolCall) = some l := by
  induction l with
  | nil => rfl
  | cons t ts ih => simp [decodeToolCallList, decodeToolCall_encode, ih]

/-- An invalid tool call survives its wire encoding. -/
theorem decodeInvalidToolCall_encode (t : InvalidToolCall) :
    decodeInvalidToolCall (encodeInvalidToolCall t) = some t := by
  obtain ⟨n, args, id, err⟩ := t
  simp [encodeInvalidToolCall, decodeInvalidToolCall, jget, asOptStr_optStr]

/-- A list of invalid tool calls survives its wire encoding. -/
theorem decodeInvalidToolCallList_encode (l : List InvalidToolCall) :
    decodeInvalidToolCallList (l.map encodeInvalidToolCall) = some l := by
  induction l with
  | nil => rfl
  | cons t ts ih => simp [decodeInvalidToolCallList, decodeInvalidToolCall_encode, ih]

/-- A single well-formed message survives the wire round trip. -/
theorem message_round_trip (m : Message) (h : wfMessage m = true) :
    message_from_dict (message_to_dict m) = some m := by
  obtain ⟨role, content, kw, rm, name, id, ex, tcs, itcs⟩ := m
  cases role with
  | system =>
    simp only [wfMessage, Bool.and_eq_true, decide_eq_true_eq] at h
    obtain ⟨⟨hex, htc⟩, hitc⟩ := h
    subst hex; subst htc; subst hitc
    simp [message_to_dict, message_from_dict, decodeCommon, roleTag, jget, asOptStr_optStr]
  | human =>
    simp only [wfMessage, Bool.and_eq_true, decide_eq_true_eq] at h
    obtain ⟨htc, hitc⟩ := h
    subst htc; subst hitc
    simp [message_to_dict, message_from_dict, decodeCommon, roleTag, jget, asOptStr_optStr]
  | ai =>
    simp [message_to_dict, message_from_dict, decodeCommon, roleTag, jget, asOptStr_optStr,
      decodeToolCallList_encode, decodeInvalidToolCallList_encode]
  | chat r =>
    simp only [wfMessage, Bool.and_eq_true, decide_eq_true_eq] at h
    obtain ⟨⟨hex, htc⟩, hitc⟩ := h
    subst hex; subst htc; subst hitc
    simp [message_to_dict, message_from_dict, decodeCommon, roleTag, jget, asOptStr_optStr]
  | function fn =>
    simp only [wfMessage, Bool.and_eq_true, decide_eq_true_eq] at h
    obtain ⟨⟨⟨hname, hex⟩, htc⟩, hitc⟩ := h
    subst hname; subst hex; subst htc; subst hitc
    cases id <;>
      simp [message_to_dict, message_from_dict, decodeCommon, roleTag, jget, asOptStr, optStr]
  | tool tcid =>
    simp only [wfMessage, Bool.and_eq_true, decide_eq_true_eq] at h
    obtain ⟨⟨hex, htc⟩, hitc⟩ := h
    subst hex; subst htc; subst hitc
    simp [message_to_dict, message_from_dict, decodeCommon, roleTag, jget, asOptStr_optStr]

/-- Claim C7: for every sequence of well-formed supported messages, the
wire round trip messages_from_dict of messages_to_dict returns the
sequence unchanged, every field preserved. -/
theorem serialization_round_trip (msgs : List Message)
    (h : ∀ m ∈ msgs, wfMessage m = true) :
    messages_from_dict (messages_to_dict msgs) = some msgs := by
  induction msgs with
  | nil => rfl
  | cons m ms ih =>
    have hm := h m (by simp)
    have hms := ih (fun x hx => h x (by simp [hx]))
    simp only [messages_to_dict, List.map] at hms ⊢
    simp [messages_from_dict, message_round_trip m hm, hms]

/-- Claim C7 witness: the in-tree round-trip inputs — a human message with
extra kwargs and a name, ai messages with names and with tool calls, a
system message — survive the round trip unchanged. -/
theorem serialization_round_trip_witness :
    messages_from_dict (messages_to_dict
      [{ role := .human, content := "human", additional_kwargs := [("key", .str "value")],
         name := some "human erick" },
       { role := .ai, content := "ai", name := some "ai erick" },
       { role := .ai, content := "",
         tool_calls := [{ name := "a", args := [("b", .num 1)], id := none }] },
       { role := .system, content := "sys", name := some "sys erick" },
       { role := .chat "User", content := "c" },
       { role := .function "greet", content := "Hi!", name := some "greet" },
       { role := .tool "tool_id", content := "Hi!" }])
      = some
      [{ role := .human, content := "human", additional_kwargs := [("key", .str "value")],
         name := some "human erick" },
       { role := .ai, content := "ai", name := some "ai erick" },
       { role := .ai, content := "",
         tool_calls := [{ name := "a", args := [("b", .num 1)], id := none }] },
       { role := .system, content := "sys", name := some "sys erick" },
       { role := .chat "User", content := "c" },
       { role := .function "greet", content := "Hi!", name := some "greet" },
       { role := .tool "tool_id", content := "Hi!" }] := by
  exact serialization_round_trip _ (by decide)

/-! ### Identity lemmas for the empty ai chunk -/

/-- Lookup distributes over appended mappings, left side first. -/
theorem jget_append (k : String) (l1 l2 : JDict) :
    jget k (l1 ++ l2)
      = match jget k l1 with
        | some v => some v
        | none => jget k l2 := by
  induction l1 with
  | nil => simp [jget]
  | cons hd tl ih =>
    obtain ⟨k', v'⟩ := hd
    by_cases hk : k' = k <;> simp [jget, hk, ih]

/-- A key that lookup misses has no binding in the mapping. -/
theorem jget_none_not_mem (k : String) (d : JDict) (h : jget k d = none) :
    ∀ v, (k, v) ∉ d := by
  induction d with
  | nil => simp
  | cons hd tl ih =>
    obtain ⟨k', v'⟩ := hd
    by_cases hk : k' = k
    · subst hk; simp [jget] at h
    · simp [jget, hk] at h
      intro v hv
      rcases List.mem_cons.1 hv with hv | hv
      · exact hk (congrArg Prod.fst hv).symm
      · exact ih h v hv

/-- Keys of an ordered mapping are pairwise distinct: each key does not
recur among the later bindings. -/
def noDupKeys : JDict → Bool
  | [] => true
  | (k, _) :: rest => (jget k rest).isNone && noDupKeys rest

/-- Merging a mapping with distinct keys onto a mapping it shares no key
with appends all its bindings in order. -/
theorem merge_dicts_fresh :
    ∀ (d l : JDict), noDupKeys d = true → (∀ k v, (k, v) ∈ d → jget k l = none) →
      merge_dicts l d = .ok (l ++ d) := by
  intro d
  induction d with
  | nil => intro l _ _; simp [merge_dicts]
  | cons hd rest ih =>
    obtain ⟨k, v⟩ := hd
    intro l hnd hfresh
    simp only [noDupKeys, Bool.and_eq_true, Option.isNone_iff_eq_none] at hnd
    obtain ⟨hk, hrest⟩ := hnd
    have hl : jget k l = none := hfresh k v (by simp)
    have step : merge_dicts l ((k, v) :: rest) = merge_dicts (l ++ [(k, v)]) rest := by
      simp [merge_dicts, hl]
    rw [step]
    have hfresh' : ∀ k' v', (k', v') ∈ rest → jget k' (l ++ [(k, v)]) = none := by
      intro k' v' hmem
      have hne : k' ≠ k := by
        intro he; subst he
        exact jget_none_not_mem k' rest hk v' hmem
      rw [jget_append]
      simp [hfresh k' v' (by simp [hmem]), jget, Ne.symm hne]
    rw [ih (l ++ [(k, v)]) hrest hfresh']
    simp

/-- Merging a mapping with distinct keys onto the empty mapping returns it
unchanged. -/
theorem merge_dicts_nil_left (d : JDict) (h : noDupKeys d = true) :
    merge_dicts [] d = .ok d := by
  have := merge_dicts_fresh d [] h (by intro k v _; rfl)
  simpa using this

/-- Whether a value is a mapping holding the given integer under the index
key — the pairing test of merge_lists. -/
def hasIdx (v : JValue) (n : Int) : Bool :=
  match v with
  | .dict kvs => decide (jget "index" kvs = some (.num n))
  | _ => false

/-- The pairing scan misses a list none of whose elements hold the index. -/
theorem findByIndex_eq_none (xs : List JValue) (n : Int)
    (h : ∀ x ∈ xs, hasIdx x n = false) : findByIndex xs n = none := by
  induction xs with
  | nil => rfl
  | cons x rest ih =>
    have hx := h x (by simp)
    have hrest := ih (fun y hy => h y (by simp [hy]))
    cases x with
    | dict kvs =>
      simp only [hasIdx, decide_eq_false_iff_not] at hx
      cases h' : jget "index" kvs with
      | none => simp [findByIndex, h', hrest]
      | some v =>
        cases v with
        | num m =>
          have hmn : ¬ (m = n) := by
            intro he; subst he; exact hx h'
          simp [findByIndex, h', hmn, hrest]
        | null => simp [findByIndex, h', hrest]
        | bool b => simp [findByIndex, h', hrest]
        | str s => simp [findByIndex, h', hrest]
        | list ys => simp [findByIndex, h', hrest]
        | dict kvs2 => simp [findByIndex, h', hrest]
        | tup ys => simp [findByIndex, h', hrest]
    | null => simp [findByIndex, hrest]
    | bool b => simp [findByIndex, hrest]
    | num m => simp [findByIndex, hrest]
    | str s => simp [findByIndex, hrest]
    | list ys => simp [findByIndex, hrest]
    | tup ys => simp [findByIndex, hrest]

/-- Appending one right element when it pairs with nothing on the left:
either it is not an indexed mapping, or its index misses every left
element. -/
theorem merge_lists_cons_step (l : List JValue) (e : JValue) (rest : List JValue)
    (h : ∀ n : Int, hasIdx e n = true → findByIndex l n = none) :
    merge_lists l (e :: rest) = merge_lists (l ++ [e]) rest := by
  cases e with
  | dict ekvs =>
    cases h' : jget "index" ekvs with
    | none => simp [merge_lists, h']
    | some v =>
      cases v with
      | num n =>
        have := h n (by simp [hasIdx, h'])
        simp [merge_lists, h', this]
      | null => simp [merge_lists, h']
      | bool b => simp [merge_lists, h']
      | str s => simp [merge_lists, h']
      | list ys => simp [merge_lists, h']
      | dict kvs2 => simp [merge_lists, h']
      | tup ys => simp [merge_lists, h']
  | null => simp [merge_lists]
  | bool b => simp [merge_lists]
  | num m => simp [merge_lists]
  | str s => simp [merge_lists]
  | list ys => simp [merge_lists]
  | tup ys => simp [merge_lists]

/-- When no element of the right list shares an index with any element
before it, the whole merge is a plain append. -/
theorem merge_lists_all_append :
    ∀ (r l : List JValue),
      List.Pairwise (fun x y => ∀ n : Int, hasIdx x n = true → hasIdx y n = false) (l ++ r) →
      merge_lists l r = .ok (l ++ r) := by
  intro r
  induction r with
  | nil => intro l _; simp [merge_lists]
  | cons e rest ih =>
    intro l hp
    have hcross : ∀ x ∈ l, ∀ n : Int, hasIdx x n = true → hasIdx e n = false := by
      have := (List.pairwise_append.1 hp).2.2
      intro x hx n hxn
      exact this x hx e (by simp) n hxn
    have hmiss : ∀ n : Int, hasIdx e n = true → findByIndex l n = none := by
      intro n hen
      refine findByIndex_eq_none l n ?_
      intro x hx
      by_contra hcon
      have hxn : hasIdx x n = true := by
        cases hx' : hasIdx x n
        · exact absurd hx' hcon
        · rfl
      have := hcross x hx n hxn
      rw [this] at hen
      exact Bool.false_ne_true hen
    rw [merge_lists_cons_step l e rest hmiss]
    have hp' : List.Pairwise (fun x y => ∀ n : Int, hasIdx x n = true → hasIdx y n = false)
        ((l ++ [e]) ++ rest) := by
      have heq : l ++ e :: rest = (l ++ [e]) ++ rest := by simp
      rw [← heq]; exact hp
    rw [ih (l ++ [e]) hp']
    simp

/-- A tool-call fragment survives its mapping encoding. -/
theorem decodeTCC_encodeTCC (c : ToolCallChunk) : decodeTCC (encodeTCC c) = c := by
  obtain ⟨n, a, i, ix⟩ := c
  simp [encodeTCC, decodeTCC, jget, asOptStr_optStr, asOptInt_optInt]

/-- A list of tool-call fragments survives its mapping encoding. -/
theorem map_decodeTCC_encodeTCC (l : List ToolCallChunk) :
    (l.map encodeTCC).map decodeTCC = l := by
  induction l with
  | nil => rfl
  | cons c rest ih => simp [decodeTCC_encodeTCC, ih]

/-- The composed decode of encode is the identity map on fragments. -/
theorem map_comp_decodeTCC (l : List ToolCallChunk) :
    List.map (decodeTCC ∘ encodeTCC) l = l := by
  induction l with
  | nil => rfl
  | cons c rest ih => simp [decodeTCC_encodeTCC, ih]

/-- The pairing test on an encoded fragment reads its index field. -/
theorem hasIdx_encodeTCC (c : ToolCallChunk) (n : Int) :
    hasIdx (encodeTCC c) n = true ↔ c.index = some n := by
  cases hc : c.index <;> simp [hasIdx, encodeTCC, jget, optInt, hc]

/-- Two fragments that cannot pair: when both carry an index, the indexes
differ. -/
def tcc_idx_ok (a b : ToolCallChunk) : Bool :=
  match a.index, b.index with
  | some m, some n => m != n
  | _, _ => true

/-- No two fragments of the list share an index. -/
def tccDistinctIdx : List ToolCallChunk → Bool
  | [] => true
  | c :: rest => rest.all (tcc_idx_ok c) && tccDistinctIdx rest

/-- Distinct indexes of fragments transfer to the no-pairing relation of
their encodings. -/
theorem pairwise_of_tccDistinctIdx (l : List ToolCallChunk)
    (h : tccDistinctIdx l = true) :
    List.Pairwise (fun x y => ∀ n : Int, hasIdx x n = true → hasIdx y n = false)
      (l.map encodeTCC) := by
  rw [List.pairwise_map]
  induction l with
  | nil => exact List.Pairwise.nil
  | cons c rest ih =>
    simp only [tccDistinctIdx, Bool.and_eq_true, List.all_eq_true] at h
    obtain ⟨hall, hrest⟩ := h
    refine List.Pairwise.cons ?_ (ih hrest)
    intro b hb n hcn
    have hc : c.index = some n := (hasIdx_encodeTCC c n).1 hcn
    have hok := hall b hb
    cases hb' : b.index with
    | none =>
      cases hx : hasIdx (encodeTCC b) n
      · rfl
      · have := (hasIdx_encodeTCC b n).1 hx
        rw [hb'] at this; cases this
    | some m =>
      have hmn : m ≠ n := by
        intro he; subst he
        rw [tcc_idx_ok, hc, hb'] at hok
        simp at hok
      cases hx : hasIdx (encodeTCC b) n
      · rfl
      · have := (hasIdx_encodeTCC b n).1 hx
        rw [hb'] at this
        cases this
        exact absurd rfl hmn

/-- Merging fragments onto an empty accumulator with pairwise distinct
indexes returns them unchanged. -/
theorem merge_tool_call_chunks_nil_left (l : List ToolCallChunk)
    (h : tccDistinctIdx l = true) :
    merge_tool_call_chunks [] l = .ok l := by
  unfold merge_tool_call_chunks
  have hml := merge_lists_all_append (l.map encodeTCC) [] (by
    simpa using pairwise_of_tccDistinctIdx l h)
  simp only [List.map_nil] at hml ⊢
  rw [show ([] : List JValue) ++ l.map encodeTCC = l.map encodeTCC from by simp] at hml
  rw [hml]
  simp [map_comp_decodeTCC]

/-- Merging no fragments onto an accumulator returns it unchanged. -/
theorem merge_tool_call_chunks_nil_right (l : List ToolCallChunk) :
    merge_tool_call_chunks l [] = .ok l := by
  unfold merge_tool_call_chunks
  simp [merge_lists, map_comp_decodeTCC]

/-- Claim C9 counterexample: the empty ai chunk is not a two-sided identity
for every ai chunk — combining it with a chunk carrying two fragments that
share index 0 collapses them into one merged fragment, so the result
differs from the right operand. -/
theorem empty_ai_chunk_not_universal_identity :
    ¬ (∀ c : MessageChunk, c.kind = .ai →
        combine { kind := .ai } c = .ok c ∧ combine c { kind := .ai } = .ok c) := by
  intro h
  have hc := (h { kind := .ai, tool_call_chunks :=
      [{ name := some "a", args := some "x", index := some 0 },
       { name := none, args := some "y", index := some 0 }] } rfl).1
  have hne : ¬ (combine { kind := .ai }
      { kind := .ai, tool_call_chunks :=
        [{ name := some "a", args := some "x", index := some 0 },
         { name := none, args := some "y", index := some 0 }] }
      = .ok { kind := .ai, tool_call_chunks :=
        [{ name := some "a", args := some "x", index := some 0 },
         { name := none, args := some "y", index := some 0 }] }) := by decide
  exact hne hc

/-- Claim C9 as amended: the ai chunk with empty content and no fragments
is a two-sided identity for combination on every ai chunk whose example
flag is the default, whose fragments carry pairwise distinct indexes, and
whose mappings are well-formed dicts (no duplicate keys — automatic for
values coming from Python dicts). -/
theorem empty_ai_chunk_identity (c : MessageChunk)
    (hk : c.kind = .ai) (hex : c.exampleFlag = false)
    (hkw : noDupKeys c.additional_kwargs = true)
    (hrm : noDupKeys c.response_metadata = true)
    (htcc : tccDistinctIdx c.tool_call_chunks = true) :
    combine { kind := .ai } c = .ok c ∧ combine c { kind := .ai } = .ok c := by
  obtain ⟨kind, content, kw, rm, id, name, ex, tcc⟩ := c
  simp only at hk hex hkw hrm htcc
  subst hk; subst hex
  constructor
  · simp only [combine, base_add]
    rw [merge_dicts_nil_left kw hkw, merge_dicts_nil_left rm hrm,
      merge_tool_call_chunks_nil_left tcc htcc]
    cases id <;> cases name <;> simp [mergeOptStr, Option.orElse]
  · simp only [combine, base_add]
    rw [show merge_dicts kw [] = .ok kw from rfl,
      show merge_dicts rm [] = .ok rm from rfl,
      merge_tool_call_chunks_nil_right tcc]
    cases id <;> cases name <;> simp [mergeOptStr, Option.orElse]

/-- Claim C9 amended witness: the in-tree identity pair — the empty ai
chunk against the ai chunk carrying one tool-call fragment — combines to
the fragment-carrying chunk on both sides. -/
theorem empty_ai_chunk_identity_witness :
    combine { kind := .ai }
        { kind := .ai, tool_call_chunks :=
          [{ name := some "tool1", args := some "a", id := none, index := some 1 }] }
      = .ok { kind := .ai, tool_call_chunks :=
          [{ name := some "tool1", args := some "a", id := none, index := some 1 }] }
    ∧ combine { kind := .ai, tool_call_chunks :=
          [{ name := some "tool1", args := some "a", id := none, index := some 1 }] }
        { kind := .ai }
      = .ok { kind := .ai, tool_call_chunks :=
          [{ name := some "tool1", args := some "a", id := none, index := some 1 }] } :=
  empty_ai_chunk_identity
    { kind := .ai, tool_call_chunks :=
      [{ name := some "tool1", args := some "a", id := none, index := some 1 }] }
    rfl rfl (by decide) (by decide) (by decide)

/-- The derived lists are the classification filterMaps, each side keeping
its relative order. -/
theorem derivedToolCalls_eq_filterMap (tcc : List ToolCallChunk) :
    derivedToolCalls tcc
      = (tcc.filterMap (fun t =>
          match classifyChunk t with
          | .inl tc => some tc
          | .inr _ => none),
         tcc.filterMap (fun t =>
          match classifyChunk t with
          | .inr b => some b
          | .inl _ => none)) := by
  induction tcc with
  | nil => rfl
  | cons c rest ih =>
    simp only [derivedToolCalls, ih]
    cases hc : classifyChunk c <;> simp [List.filterMap_cons, hc]

/-- Claim C3 counterexample: finalization does not default a missing args
to the empty-object string before parsing — a fragment with a name and no
args lands in invalid_tool_calls with args None, whereas the claimed rule
would parse the defaulted empty object and emit a ToolCall. -/
theorem finalize_args_default_refuted :
    ¬ (∀ c : MessageChunk, c.kind = ChunkKind.ai →
        ∀ m, message_chunk_to_message c = some m →
          m.tool_calls = c.tool_call_chunks.filterMap (fun t =>
            match parse_json ((t.args).getD "\x7b\x7d"), t.name with
            | some (.dict kvs), some n => some { name := n, args := kvs, id := t.id }
            | _, _ => none)) := by
  intro h
  have hm : message_chunk_to_message
      { kind := .ai, tool_call_chunks :=
        [{ name := some "tool3", args := none, id := some "3", index := some 0 }] }
      = some { role := .ai,
               invalid_tool_calls :=
                 [{ name := some "tool3", args := none, id := some "3", error := none }] } := by
    decide
  have hx := h _ rfl _ hm
  exact absurd hx (by decide)

/-- Claim C3 as amended: finalizing an ai chunk always succeeds and derives
tool_calls and invalid_tool_calls from the accumulated fragments, in
order: argument text parsing as a JSON mapping with a name present gives a
ToolCall with the parsed mapping; a parse failure, a non-mapping parse
result, or a missing name gives an InvalidToolCall retaining the raw
argument string; and a missing args gives an InvalidToolCall with args
None directly — it is not defaulted to an empty-object string first. -/
theorem finalize_derives_tool_calls (c : MessageChunk) (hk : c.kind = .ai) :
    (∃ m, message_chunk_to_message c = some m
      ∧ m.tool_calls = c.tool_call_chunks.filterMap (fun t =>
          match classifyChunk t with
          | .inl tc => some tc
          | .inr _ => none)
      ∧ m.invalid_tool_calls = c.tool_call_chunks.filterMap (fun t =>
          match classifyChunk t with
          | .inr b => some b
          | .inl _ => none))
    ∧ (∀ t : ToolCallChunk, t.args = none →
        classifyChunk t = .inr { name := t.name, args := none, id := t.id, error := none })
    ∧ (∀ (t : ToolCallChunk) (s n : String) (kvs : JDict),
        t.args = some s → parse_json s = some (.dict kvs) → t.name = some n →
        classifyChunk t = .inl { name := n, args := kvs, id := t.id })
    ∧ (∀ (t : ToolCallChunk) (s : String) (kvs : JDict),
        t.args = some s → parse_json s = some (.dict kvs) → t.name = none →
        classifyChunk t = .inr { name := none, args := some s, id := t.id, error := none })
    ∧ (∀ (t : ToolCallChunk) (s : String),
        t.args = some s → parse_json s = none →
        classifyChunk t = .inr { name := t.name, args := some s, id := t.id, error := none })
    ∧ (∀ (t : ToolCallChunk) (s : String) (v : JValue),
        t.args = some s → parse_json s = some v → (∀ kvs : JDict, v ≠ .dict kvs) →
        classifyChunk t = .inr { name := t.name, args := some s, id := t.id, error := none }) := by
  refine ⟨?_, ?_, ?_, ?_, ?_, ?_⟩
  · refine ⟨{ role := .ai, content := c.content, additional_kwargs := c.additional_kwargs,
              response_metadata := c.response_metadata, name := c.name, id := c.id,
              exampleFlag := c.exampleFlag,
              tool_calls := (derivedToolCalls c.tool_call_chunks).1,
              invalid_tool_calls := (derivedToolCalls c.tool_call_chunks).2 }, ?_, ?_, ?_⟩
    · simp [message_chunk_to_message, hk]
    · simp [derivedToolCalls_eq_filterMap]
    · simp [derivedToolCalls_eq_filterMap]
  · intro t h; simp [classifyChunk, h]
  · intro t s n kvs h1 h2 h3; simp [classifyChunk, h1, h2, h3]
  · intro t s kvs h1 h2 h3; simp [classifyChunk, h1, h2, h3]
  · intro t s h1 h2; simp [classifyChunk, h1, h2]
  · intro t s v h1 h2 h3
    cases v with
    | dict kvs => exact absurd rfl (h3 kvs)
    | null => simp [classifyChunk, h1, h2]
    | bool b => simp [classifyChunk, h1, h2]
    | num n => simp [classifyChunk, h1, h2]
    | str s2 => simp [classifyChunk, h1, h2]
    | list xs => simp [classifyChunk, h1, h2]
    | tup xs => simp [classifyChunk, h1, h2]

/-- Claim C3 amended witness: at the in-tree finalization inputs — a
well-formed fragment, a fragment with no args, and one with unparsable
args — finalization succeeds, classifies them into one ToolCall and two
InvalidToolCalls in order, and the per-fragment rules apply as stated. -/
theorem finalize_derives_tool_calls_witness :
    (∃ m, message_chunk_to_message
        { kind := .ai, content := "I am", tool_call_chunks :=
          [{ name := some "tool1", args := some "\x7b\"a\": 1\x7d", id := some "1", index := some 0 },
           { name := some "tool3", args := none, id := some "3", index := some 0 },
           { name := some "tool4", args := some "abc", id := some "4", index := some 0 }] }
        = some m
      ∧ m.tool_calls = [{ name := "tool1", args := [("a", .num 1)], id := some "1" }]
      ∧ m.invalid_tool_calls =
          [{ name := some "tool3", args := none, id := some "3", error := none },
           { name := some "tool4", args := some "abc", id := some "4", error := none }])
    ∧ classifyChunk { name := some "tool3", args := none, id := some "3", index := some 0 }
        = .inr { name := some "tool3", args := none, id := some "3", error := none }
    ∧ classifyChunk { name := some "tool4", args := some "abc", id := some "4", index := some 0 }
        = .inr { name := some "tool4", args := some "abc", id := some "4", error := none } := by
  have h := finalize_derives_tool_calls
    { kind := .ai, content := "I am", tool_call_chunks :=
      [{ name := some "tool1", args := some "\x7b\"a\": 1\x7d", id := some "1", index := some 0 },
       { name := some "tool3", args := none, id := some "3", index := some 0 },
       { name := some "tool4", args := some "abc", id := some "4", index := some 0 }] } rfl
  obtain ⟨⟨m, hm, h1, h2⟩, hnone, hok, hnoname, hfail, hnondict⟩ := h
  refine ⟨⟨m, hm, ?_, ?_⟩, ?_, ?_⟩
  · rw [h1]; decide
  · rw [h2]; decide
  · exact hnone { name := some "tool3", args := none, id := some "3", index := some 0 } rfl
  · exact hfail { name := some "tool4", args := some "abc", id := some "4", index := some 0 }
      "abc" rfl (by decide)
